import Mathlib

/-!
Verification of the chunked block-triangular duplicate scanner of
`belgian_blue/belgian_blue.py` (with the sentinel handling of
`belgian_blue/belgian_buggy.py`), as a shallow embedding.

A record is modelled as its ingestion `position` (index in the ordered file
list) together with its `payload` (the sequence string that `read_data`
extracts).  `read_data` is deterministic per file path, so chunking the
already-ingested records is equivalent to chunking the file paths and reading
inside the loops; the record list for a payload list `files` is `files.enum`.
-/

namespace BelgianBlue

/-- A record: ingestion position paired with its sequence payload. -/
abbrev Record := ℕ × String

/-- The record's index in the original ordered file list. -/
def position (r : Record) : ℕ := r.1

/-- The record's sequence payload, the field compared for duplicates. -/
def payload (r : Record) : String := r.2

/-- The accumulation loop of `chunk_` (belgian_blue.py lines 88-98): append
each file to `tmp`; flush `tmp` as a batch whenever `len(tmp) >= n_batch/2.0`
(the Python float comparison `len(tmp) >= float(n_batch)/2.0` is exactly
`n_batch <= 2*len(tmp)`); append a nonempty leftover `tmp` at the end. -/
def chunkGo {α : Type} (n_batch : Int) : List α → List α → List (List α)
  | [], tmp => if 0 < tmp.length then [tmp] else []
  | f :: fs, tmp =>
    if n_batch ≤ 2 * ((tmp.length : Int) + 1) then (tmp ++ [f]) :: chunkGo n_batch fs []
    else chunkGo n_batch fs (tmp ++ [f])

/-- `chunk_(files, n_batch)` (belgian_blue.py lines 67-100): one batch holding
everything when `len(files) <= n_batch`, otherwise the flush loop. -/
def chunk_ {α : Type} (files : List α) (n_batch : Int) : List (List α) :=
  if (files.length : Int) ≤ n_batch then [files]
  else chunkGo n_batch files []

/-- `_square(chunk1, chunk2)` (belgian_blue.py lines 224-253): the data-pair
list for all pairs, outer loop over `chunk1`, inner over `chunk2`. -/
def squarePairs {α : Type} (chunk1 chunk2 : List α) : List (α × α) :=
  chunk1.flatMap fun f1 => chunk2.map fun f2 => (f1, f2)

/-- `_triangle(chunk)` (belgian_blue.py lines 255-282): the data-pair list for
the strict upper triangle, `f1 = chunk[k]` against each `f2` in `chunk[k+1:]`. -/
def trianglePairs {α : Type} : List α → List (α × α)
  | [] => []
  | f1 :: rest => (rest.map fun f2 => (f1, f2)) ++ trianglePairs rest

/-- One cell of the scanner's double loop over batch indices
(belgian_blue.py lines 305-318): `k1 = k2` takes the triangle, `k1 < k2` the
square, `k1 > k2` nothing.  The trichotomy is total, so the source's final
`else: raise RuntimeError('Strange index relation encountered')` is
unreachable and has no counterpart here. -/
def cellPairs {α : Type} (k1 k2 : ℕ) (c1 c2 : List α) : List (α × α) :=
  if k1 = k2 then trianglePairs c1
  else if k1 < k2 then squarePairs c1 c2
  else []

/-- The pairs yielded by the scanner's enumerated double loop, concatenated in
row-major visit order. -/
def pairsOf {α : Type} (chunks : List (List α)) : List (α × α) :=
  chunks.enum.flatMap fun p => chunks.enum.flatMap fun q => cellPairs p.1 q.1 p.2 q.2

/-- `lower_triangular(chunks)` (belgian_blue.py lines 284-325): raises
`RuntimeError` on an empty chunk list, otherwise yields every cell's data
pairs in row-major order. -/
def lower_triangular {α : Type} (chunks : List (List α)) : Except String (List (α × α)) :=
  if chunks.length = 0 then .error "No files in the list to consider"
  else .ok (pairsOf chunks)

/-- The records ingested from a payload list: positions are the indices in the
original ordered list. -/
def recordsOf (files : List String) : List Record := files.enum

/-- The match filter of `main` (belgian_blue.py line 341):
`data1['sequence'] == data2['sequence']`. -/
def isMatch (pr : Record × Record) : Bool := payload pr.1 == payload pr.2

/-- The whole pipeline of `main` (belgian_blue.py lines 328-348) from the
ordered payload list: chunk, scan, keep the equal-payload pairs. -/
def scanMatches (files : List String) (n_batch : Int) :
    Except String (List (Record × Record)) :=
  (lower_triangular (chunk_ (recordsOf files) n_batch)).map fun prs => prs.filter isMatch

/-- The brute-force reference: every pair `(i, j)`, `i < j`, over the full
record list whose payloads are equal. -/
def bruteForce (files : List String) : List (Record × Record) :=
  (trianglePairs (recordsOf files)).filter isMatch

/-- The sentinel payload that `read_data` of belgian_buggy.py substitutes for
a record whose GenBank parse raised `ValueError`. -/
def MALFORMED_SENTINEL : String := "MALFORMED_GENBANK_FILE"

/-- Outcome of parsing one GenBank file: either the record's sequence string,
or the message of the `ValueError` the parser raised. -/
inductive ParseOutcome : Type
  | ok (seq : String)
  | valueError (msg : String)

/-- The sequence payload stored by `read_data` (belgian_buggy.py lines
198-213): the parsed sequence on success, the sentinel string on a
`ValueError`. -/
def read_data : ParseOutcome → String
  | .ok seq => seq
  | .valueError _ => MALFORMED_SENTINEL

/-- The duplicate test applied downstream to two stored payloads
(`data1['sequence'] == data2['sequence']` in belgian_blue.py line 341,
`row1.sequence == row2.sequence` in belgian_duplicates.py). -/
def sequencesEqual (o1 o2 : ParseOutcome) : Bool := read_data o1 == read_data o2

/-- Record-data dictionaries held by the `data_pairs` list that `_triangle`
builds for one diagonal `(p,p)` visit before anything is yielded
(belgian_blue.py lines 269-282): each pair holds two freshly read,
unshared record dicts. -/
def triangleResident {α : Type} (chunk : List α) : ℕ := 2 * (trianglePairs chunk).length

/-- Record-data dictionaries held by the `data_pairs` list that `_square`
builds for one off-diagonal `(p,q)` visit (belgian_blue.py lines 240-253). -/
def squareResident {α : Type} (c1 c2 : List α) : ℕ := 2 * (squarePairs c1 c2).length

/-! ### Structural lemmas about the pair lists -/

theorem squarePairs_cons {α : Type} (x : α) (c1 c2 : List α) :
    squarePairs (x :: c1) c2 = (c2.map fun f2 => (x, f2)) ++ squarePairs c1 c2 := by
  simp [squarePairs]

theorem squarePairs_append_right {α : Type} [DecidableEq α] (c l1 l2 : List α) :
    (squarePairs c (l1 ++ l2)).Perm (squarePairs c l1 ++ squarePairs c l2) := by
  induction c with
  | nil => simp [squarePairs]
  | cons x xs ih =>
    rw [List.perm_iff_count] at ih ⊢
    intro a
    have h := ih a
    simp only [squarePairs_cons, List.map_append, List.count_append] at h ⊢
    omega

theorem trianglePairs_append {α : Type} [DecidableEq α] (l1 l2 : List α) :
    (trianglePairs (l1 ++ l2)).Perm
      (trianglePairs l1 ++ squarePairs l1 l2 ++ trianglePairs l2) := by
  induction l1 with
  | nil => simp [trianglePairs, squarePairs]
  | cons x xs ih =>
    rw [List.perm_iff_count] at ih ⊢
    intro a
    have h := ih a
    simp only [List.cons_append, trianglePairs, squarePairs_cons, List.map_append,
      List.count_append, List.append_eq] at h ⊢
    omega

theorem flatMap_squarePairs_perm {α : Type} [DecidableEq α] (c : List α)
    (rest : List (List α)) :
    (rest.flatMap fun c2 => squarePairs c c2).Perm (squarePairs c rest.flatten) := by
  induction rest with
  | nil => simp [squarePairs]
  | cons r rs ih =>
    have h2 := squarePairs_append_right c r rs.flatten
    rw [List.perm_iff_count] at ih h2 ⊢
    intro a
    have := ih a
    have := h2 a
    simp only [List.flatMap_cons, List.flatten_cons, List.count_append] at *
    omega

theorem cellPairs_zero_zero {α : Type} (c1 c2 : List α) :
    cellPairs 0 0 c1 c2 = trianglePairs c1 := by
  simp [cellPairs]

theorem cellPairs_zero_succ {α : Type} (k : ℕ) (c1 c2 : List α) :
    cellPairs 0 (k + 1) c1 c2 = squarePairs c1 c2 := by
  simp [cellPairs]

theorem cellPairs_succ_zero {α : Type} (k : ℕ) (c1 c2 : List α) :
    cellPairs (k + 1) 0 c1 c2 = [] := by
  simp [cellPairs]

theorem cellPairs_succ_succ {α : Type} (k1 k2 : ℕ) (c1 c2 : List α) :
    cellPairs (k1 + 1) (k2 + 1) c1 c2 = cellPairs k1 k2 c1 c2 := by
  simp [cellPairs, Nat.succ_lt_succ_iff]

theorem flatMap_enum_snd {α β : Type} (l : List α) (f : α → List β) :
    (l.enum.flatMap fun q => f q.2) = l.flatMap f := by
  induction l with
  | nil => rfl
  | cons x xs ih =>
    rw [List.enum_cons', List.flatMap_cons, List.flatMap_map]
    simp only [Prod.map_snd, id_eq]
    rw [List.flatMap_cons]
    exact congrArg _ ih

theorem pairsOf_cons {α : Type} (c : List α) (rest : List (List α)) :
    pairsOf (c :: rest) =
      trianglePairs c ++ (rest.flatMap fun c2 => squarePairs c c2) ++ pairsOf rest := by
  simp only [pairsOf, List.enum_cons', List.flatMap_cons, List.flatMap_map,
    Prod.map_fst, Prod.map_snd, id_eq, cellPairs_zero_zero, cellPairs_zero_succ,
    cellPairs_succ_zero, cellPairs_succ_succ, List.nil_append, List.append_assoc]
  rw [flatMap_enum_snd]

theorem pairsOf_perm {α : Type} [DecidableEq α] (chunks : List (List α)) :
    (pairsOf chunks).Perm (trianglePairs chunks.flatten) := by
  induction chunks with
  | nil => simp [pairsOf, trianglePairs]
  | cons c rest ih =>
    rw [pairsOf_cons, List.flatten_cons]
    have hmid :
        (trianglePairs c ++ (rest.flatMap fun c2 => squarePairs c c2) ++ pairsOf rest).Perm
          (trianglePairs c ++ squarePairs c rest.flatten ++ trianglePairs rest.flatten) :=
      ((flatMap_squarePairs_perm c rest).append_left _).append ih
    exact hmid.trans (trianglePairs_append c rest.flatten).symm

/-! ### The batcher is a partition of the input -/

theorem chunkGo_flatten {α : Type} (n : Int) :
    ∀ (fs tmp : List α), (chunkGo n fs tmp).flatten = tmp ++ fs := by
  intro fs
  induction fs with
  | nil =>
    intro tmp
    by_cases h0 : 0 < tmp.length
    · simp [chunkGo, h0]
    · have : tmp = [] := by
        cases tmp with
        | nil => rfl
        | cons a l => simp at h0
      simp [chunkGo, h0, this]
  | cons f fs ih =>
    intro tmp
    by_cases hc : n ≤ 2 * ((tmp.length : Int) + 1)
    · simp [chunkGo, hc, ih]
    · simp [chunkGo, hc, ih]

theorem chunk_flatten {α : Type} (files : List α) (n : Int) :
    (chunk_ files n).flatten = files := by
  unfold chunk_
  by_cases h : (files.length : Int) ≤ n
  · simp [h]
  · simp [h, chunkGo_flatten]

theorem chunk_ne_nil {α : Type} (files : List α) (n : Int)
    (h : 0 ≤ n ∨ files ≠ []) : chunk_ files n ≠ [] := by
  intro hnil
  have hflat := chunk_flatten files n
  rw [hnil] at hflat
  simp only [List.flatten_nil] at hflat
  rcases h with h0 | hne
  · have hcond : ((files.length : Int)) ≤ n := by
      rw [← hflat]
      simpa using h0
    unfold chunk_ at hnil
    rw [if_pos hcond] at hnil
    exact List.cons_ne_nil _ _ hnil
  · exact hne hflat.symm

/-! ### The scan succeeds and is a permutation of the brute-force pair list -/

theorem scan_eq_ok (files : List String) (n : Int)
    (h : chunk_ (recordsOf files) n ≠ []) :
    scanMatches files n =
      .ok ((pairsOf (chunk_ (recordsOf files) n)).filter isMatch) := by
  unfold scanMatches lower_triangular
  rw [if_neg (by simpa [List.length_eq_zero] using h)]
  rfl

theorem scan_perm_bruteForce (files : List String) (n : Int)
    (h : chunk_ (recordsOf files) n ≠ []) :
    ∃ l, scanMatches files n = .ok l ∧ l.Perm (bruteForce files) := by
  refine ⟨_, scan_eq_ok files n h, ?_⟩
  have hp : (pairsOf (chunk_ (recordsOf files) n)).Perm (trianglePairs (recordsOf files)) := by
    have hperm := pairsOf_perm (chunk_ (recordsOf files) n)
    rwa [chunk_flatten] at hperm
  exact hp.filter _

/-! ### Nodup and ordering facts about the triangle pair list -/

theorem mem_trianglePairs {α : Type} {l : List α} {pr : α × α}
    (h : pr ∈ trianglePairs l) : pr.1 ∈ l ∧ pr.2 ∈ l := by
  induction l with
  | nil => simp [trianglePairs] at h
  | cons x xs ih =>
    simp only [trianglePairs, List.mem_append, List.mem_map] at h
    rcases h with ⟨y, hy, rfl⟩ | h
    · exact ⟨List.mem_cons_self _ _, List.mem_cons_of_mem _ hy⟩
    · exact ⟨List.mem_cons_of_mem _ (ih h).1, List.mem_cons_of_mem _ (ih h).2⟩

theorem trianglePairs_pairwise {α : Type} {R : α → α → Prop} :
    ∀ {l : List α}, l.Pairwise R → ∀ pr ∈ trianglePairs l, R pr.1 pr.2 := by
  intro l
  induction l with
  | nil => intro _ pr hpr; simp [trianglePairs] at hpr
  | cons x xs ih =>
    intro hl pr hpr
    rw [List.pairwise_cons] at hl
    simp only [trianglePairs, List.mem_append, List.mem_map] at hpr
    rcases hpr with ⟨y, hy, rfl⟩ | hpr
    · exact hl.1 y hy
    · exact ih hl.2 pr hpr

theorem trianglePairs_nodup {α : Type} {l : List α} (h : l.Nodup) :
    (trianglePairs l).Nodup := by
  induction l with
  | nil => simp [trianglePairs]
  | cons x xs ih =>
    rw [List.nodup_cons] at h
    rw [trianglePairs, List.nodup_append]
    refine ⟨h.2.map (fun a b hab => ?_), ih h.2, ?_⟩
    · exact congrArg Prod.snd hab
    · intro pr hpr1 hpr2
      rcases List.mem_map.mp hpr1 with ⟨y, _, rfl⟩
      exact h.1 (mem_trianglePairs hpr2).1

theorem trianglePairs_map {α β : Type} (f : α → β) (l : List α) :
    trianglePairs (l.map f) = (trianglePairs l).map (Prod.map f f) := by
  induction l with
  | nil => rfl
  | cons x xs ih =>
    simp [trianglePairs, ih, List.map_map, Function.comp]

theorem recordsOf_nodup (files : List String) : (recordsOf files).Nodup := by
  have h : ((recordsOf files).map Prod.fst).Nodup := by
    unfold recordsOf
    rw [List.enum_map_fst]
    exact List.nodup_range _
  exact h.of_map _

theorem recordsOf_pairwise (files : List String) :
    (recordsOf files).Pairwise fun a b => position a < position b := by
  have h : ((recordsOf files).map Prod.fst).Pairwise (· < ·) := by
    unfold recordsOf
    rw [List.enum_map_fst]
    exact List.pairwise_lt_range _
  exact (List.pairwise_map.mp h).imp fun hab => hab

theorem bruteForce_nodup (files : List String) : (bruteForce files).Nodup :=
  (trianglePairs_nodup (recordsOf_nodup files)).filter _

theorem bruteForce_posPairs_nodup (files : List String) :
    ((bruteForce files).map fun pr => (position pr.1, position pr.2)).Nodup := by
  have hfun : (fun pr : Record × Record => (position pr.1, position pr.2)) =
      Prod.map Prod.fst Prod.fst := by
    funext pr
    rfl
  have htri : ((trianglePairs (recordsOf files)).map
      (Prod.map Prod.fst Prod.fst)).Nodup := by
    rw [← trianglePairs_map]
    refine trianglePairs_nodup ?_
    unfold recordsOf
    rw [List.enum_map_fst]
    exact List.nodup_range _
  have hsub : ((bruteForce files).map (Prod.map Prod.fst Prod.fst)).Sublist
      ((trianglePairs (recordsOf files)).map (Prod.map Prod.fst Prod.fst)) :=
    (List.filter_sublist _).map _
  rw [hfun]
  exact htri.sublist hsub

/-! ### Batch sizes produced by the flush loop -/

theorem chunkGo_sizes {α : Type} (n : Int) (b : ℕ) (hb : 0 < b)
    (hiff : ∀ m : ℕ, n ≤ 2 * (m : Int) ↔ b ≤ m) :
    ∀ (fs tmp : List α), tmp.length < b →
      ∃ full rest, chunkGo n fs tmp = full ++ rest ∧
        (∀ c ∈ full, c.length = b) ∧ rest.length ≤ 1 ∧
        ∀ c ∈ rest, 0 < c.length ∧ c.length ≤ b := by
  intro fs
  induction fs with
  | nil =>
    intro tmp htmp
    by_cases h0 : 0 < tmp.length
    · exact ⟨[], [tmp], by simp [chunkGo, h0], by simp, by simp,
        by simpa [h0] using Nat.le_of_lt htmp⟩
    · exact ⟨[], [], by simp [chunkGo, h0], by simp, by simp, by simp⟩
  | cons f fs ih =>
    intro tmp htmp
    by_cases hc : n ≤ 2 * ((tmp.length : Int) + 1)
    · have hlen : (tmp ++ [f]).length = b := by
        have h1 : b ≤ tmp.length + 1 := by
          have := (hiff (tmp.length + 1)).mp (by push_cast; linarith)
          exact this
        simp only [List.length_append, List.length_cons, List.length_nil]
        omega
      obtain ⟨full, rest, heq, hfull, hrlen, hrest⟩ := ih [] (by simpa using hb)
      refine ⟨(tmp ++ [f]) :: full, rest, ?_, ?_, hrlen, hrest⟩
      · simp only [chunkGo, hc, if_pos, heq, List.cons_append]
      · intro c hc'
        rcases List.mem_cons.mp hc' with rfl | hmem
        · exact hlen
        · exact hfull c hmem
    · have hlt : (tmp ++ [f]).length < b := by
        have h1 : ¬ b ≤ tmp.length + 1 := by
          intro hle
          exact hc ((hiff (tmp.length + 1)).mpr hle |>.trans_eq (by push_cast; ring))
        simp only [List.length_append, List.length_cons, List.length_nil]
        omega
      obtain ⟨full, rest, heq, hfull, hrlen, hrest⟩ := ih (tmp ++ [f]) hlt
      exact ⟨full, rest, by simp [chunkGo, hc, heq], hfull, hrlen, hrest⟩

theorem chunkGo_nonpos {α : Type} (n : Int) (hn : n ≤ 0) :
    ∀ fs : List α, chunkGo n fs [] = fs.map fun f => [f] := by
  intro fs
  induction fs with
  | nil => rfl
  | cons f fs ih =>
    have hc : n ≤ 2 * ((([] : List α).length : Int) + 1) := by simp; omega
    simp only [chunkGo, hc, if_pos, List.nil_append, List.map_cons, ih]

/-! ### Length of the triangle pair list -/

theorem two_mul_trianglePairs_length {α : Type} (l : List α) :
    2 * (trianglePairs l).length = l.length * (l.length - 1) := by
  induction l with
  | nil => rfl
  | cons x xs ih =>
    simp only [trianglePairs, List.length_append, List.length_map, List.length_cons,
      Nat.add_sub_cancel]
    have key : (xs.length + 1) * xs.length = xs.length * (xs.length - 1) + 2 * xs.length := by
      cases xs.length with
      | zero => rfl
      | succ k =>
        simp only [Nat.succ_sub_one]
        ring
    rw [key]
    linarith [ih]

/-! ### Claim theorems -/

/-- Claim C1: for every record list and every positive `max_batch_size`, the
scan succeeds and its emitted match list is a permutation of the brute-force
all-pairs result (every `i < j` with equal payloads, each exactly once — both
lists are duplicate-free). -/
theorem scan_completeness (files : List String) (n : Int) (h : 0 < n) :
    ∃ l, scanMatches files n = .ok l ∧ l.Perm (bruteForce files) ∧
      l.Nodup ∧ (bruteForce files).Nodup := by
  obtain ⟨l, hok, hperm⟩ := scan_perm_bruteForce files n (chunk_ne_nil _ _ (Or.inl h.le))
  exact ⟨l, hok, hperm, hperm.symm.nodup (bruteForce_nodup files), bruteForce_nodup files⟩

/-- Witness for C1 at `files = ["a", "b", "a"]`, `max_batch_size = 2`. -/
theorem scan_completeness_witness :
    (0 : Int) < 2 ∧ ∃ l, scanMatches ["a", "b", "a"] 2 = .ok l ∧
      l.Perm (bruteForce ["a", "b", "a"]) ∧ l.Nodup ∧ (bruteForce ["a", "b", "a"]).Nodup :=
  ⟨by decide, scan_completeness ["a", "b", "a"] 2 (by decide)⟩

/-- Claim C2: every emitted match has `record_a.position < record_b.position`
(so no record is paired with itself), and no unordered pair of positions is
emitted twice, for every record list and every positive `max_batch_size`. -/
theorem match_ordering (files : List String) (n : Int) (h : 0 < n) :
    ∃ l, scanMatches files n = .ok l ∧
      (∀ pr ∈ l, position pr.1 < position pr.2) ∧
      (l.map fun pr => (position pr.1, position pr.2)).Nodup := by
  obtain ⟨l, hok, hperm⟩ := scan_perm_bruteForce files n (chunk_ne_nil _ _ (Or.inl h.le))
  refine ⟨l, hok, ?_, ?_⟩
  · intro pr hpr
    have hb : pr ∈ bruteForce files := hperm.mem_iff.mp hpr
    have ht : pr ∈ trianglePairs (recordsOf files) := List.mem_of_mem_filter hb
    exact trianglePairs_pairwise (recordsOf_pairwise files) pr ht
  · exact ((hperm.map _).symm).nodup (bruteForce_posPairs_nodup files)

/-- Witness for C2 at `files = ["x", "x", "y"]`, `max_batch_size = 1`. -/
theorem match_ordering_witness :
    (0 : Int) < 1 ∧ ∃ l, scanMatches ["x", "x", "y"] 1 = .ok l ∧
      (∀ pr ∈ l, position pr.1 < position pr.2) ∧
      (l.map fun pr => (position pr.1, position pr.2)).Nodup :=
  ⟨by decide, match_ordering ["x", "x", "y"] 1 (by decide)⟩

/-- Claim C3: for a fixed record list the emitted match set is the same for
every positive `max_batch_size` (the two runs' match lists are permutations of
each other). -/
theorem batch_invariance (files : List String) (n1 n2 : Int)
    (h1 : 0 < n1) (h2 : 0 < n2) :
    ∃ l1 l2, scanMatches files n1 = .ok l1 ∧ scanMatches files n2 = .ok l2 ∧
      l1.Perm l2 := by
  obtain ⟨l1, hok1, hp1⟩ := scan_perm_bruteForce files n1 (chunk_ne_nil _ _ (Or.inl h1.le))
  obtain ⟨l2, hok2, hp2⟩ := scan_perm_bruteForce files n2 (chunk_ne_nil _ _ (Or.inl h2.le))
  exact ⟨l1, l2, hok1, hok2, hp1.trans hp2.symm⟩

/-- Witness for C3 at `files = ["x", "y", "x"]`, batch sizes `2` and `5`. -/
theorem batch_invariance_witness :
    ((0 : Int) < 2 ∧ (0 : Int) < 5) ∧
      ∃ l1 l2, scanMatches ["x", "y", "x"] 2 = .ok l1 ∧
        scanMatches ["x", "y", "x"] 5 = .ok l2 ∧ l1.Perm l2 :=
  ⟨⟨by decide, by decide⟩, batch_invariance ["x", "y", "x"] 2 5 (by decide) (by decide)⟩

/-- Counterexample to claim C4 as stated: with `max_batch_size = 3` on four
identifiers the non-final batch has size `2`, not `floor(3/2) = 1` — the flush
fires at `ceil(n_batch/2)`, not `floor(n_batch/2)`. -/
theorem chunk_split_floor_cex :
    chunk_ ([0, 1, 2, 3] : List ℕ) 3 = [[0, 1], [2, 3]] ∧
    ¬ ∀ c ∈ (chunk_ ([0, 1, 2, 3] : List ℕ) 3).dropLast, c.length = 3 / 2 := by
  decide

/-- Claim C4 as amended: for `N <= max_batch_size` a single batch holding all
identifiers; otherwise every batch except possibly the final one has size
exactly `ceil(max_batch_size / 2) = (max_batch_size + 1) / 2`, and the final
batch has size in `[1, ceil(max_batch_size / 2)]`. -/
theorem chunk_split_rule {α : Type} (files : List α) (n : Int) (hn : 0 < n) :
    ((files.length : Int) ≤ n → chunk_ files n = [files]) ∧
    (n < (files.length : Int) →
      ∃ full rest, chunk_ files n = full ++ rest ∧
        (∀ c ∈ full, c.length = (n.toNat + 1) / 2) ∧ rest.length ≤ 1 ∧
        ∀ c ∈ rest, 0 < c.length ∧ c.length ≤ (n.toNat + 1) / 2) := by
  constructor
  · intro hle
    unfold chunk_
    rw [if_pos hle]
  · intro hgt
    have hb : 0 < (n.toNat + 1) / 2 := by omega
    have hiff : ∀ m : ℕ, n ≤ 2 * (m : Int) ↔ (n.toNat + 1) / 2 ≤ m := by
      intro m
      omega
    unfold chunk_
    rw [if_neg (not_le.mpr hgt)]
    exact chunkGo_sizes n _ hb hiff files [] (by simpa using hb)

/-- Witness for the amended C4 at five identifiers and `max_batch_size = 3`
(batches `[[0,1], [2,3], [4]]`). -/
theorem chunk_split_rule_witness :
    (0 : Int) < 3 ∧
      ((([0, 1, 2, 3, 4] : List ℕ).length : Int) ≤ 3 →
        chunk_ ([0, 1, 2, 3, 4] : List ℕ) 3 = [[0, 1, 2, 3, 4]]) ∧
      ((3 : Int) < (([0, 1, 2, 3, 4] : List ℕ).length : Int) →
        ∃ full rest, chunk_ ([0, 1, 2, 3, 4] : List ℕ) 3 = full ++ rest ∧
          (∀ c ∈ full, c.length = ((3 : Int).toNat + 1) / 2) ∧ rest.length ≤ 1 ∧
          ∀ c ∈ rest, 0 < c.length ∧ c.length ≤ ((3 : Int).toNat + 1) / 2) :=
  ⟨by decide, chunk_split_rule [0, 1, 2, 3, 4] 3 (by decide)⟩

/-- Counterexample to claim C5 as stated: on an empty identifier list the
batcher raises nothing and returns one empty batch, and the scan completes
with `ok []` instead of aborting with an error. -/
theorem empty_input_error_cex :
    chunk_ (recordsOf []) 100 = [[]] ∧ scanMatches [] 100 = .ok [] :=
  ⟨rfl, rfl⟩

/-- Claim C5 as amended: for every positive `max_batch_size`, an empty
identifier list does not fail: the batcher returns the single empty batch
`[[]]` and the scan returns `ok []` (zero output, no error). -/
theorem empty_input_no_failure (n : Int) (h : 0 < n) :
    chunk_ (recordsOf []) n = [[]] ∧ scanMatches [] n = .ok [] := by
  have h0 : (((recordsOf []).length : Int)) ≤ n := by
    simp only [recordsOf, List.enum_nil, List.length_nil, Nat.cast_zero]
    omega
  have hchunk : chunk_ (recordsOf []) n = [[]] := by
    unfold chunk_
    rw [if_pos h0]
    rfl
  refine ⟨hchunk, ?_⟩
  unfold scanMatches
  rw [hchunk]
  rfl

/-- Witness for the amended C5 at `max_batch_size = 17`. -/
theorem empty_input_no_failure_witness :
    (0 : Int) < 17 ∧ chunk_ (recordsOf []) 17 = [[]] ∧ scanMatches [] 17 = .ok [] :=
  ⟨by decide, empty_input_no_failure 17 (by decide)⟩

/-- Counterexample to claim C6 as stated: with `max_batch_size = 2` the
batcher flushes at `ceil(2/2) = 1`, producing four singleton batches
`[[A],[B],[C],[D]]`, not the two batches `[[A,B],[C,D]]` the claim asserts. -/
theorem scenario_batches_cex :
    chunk_ (recordsOf ["x", "y", "x", "x"]) 2 =
      [[(0, "x")], [(1, "y")], [(2, "x")], [(3, "x")]] ∧
    chunk_ (recordsOf ["x", "y", "x", "x"]) 2 ≠
      [[(0, "x"), (1, "y")], [(2, "x"), (3, "x")]] := by
  refine ⟨rfl, ?_⟩
  decide

/-- Claim C6 as amended: on records `[A:"x", B:"y", C:"x", D:"x"]` with
`max_batch_size = 2` the batcher yields the four singleton batches
`[[A],[B],[C],[D]]`; every diagonal (Triangular) cell yields nothing, the
FullCross cells `(0,2)`, `(0,3)`, `(2,3)` yield `(A,C)`, `(A,D)`, `(C,D)`, and
the total match list is exactly those three pairs — agreeing with brute force
on the full 4-record set. -/
theorem scenario_actual :
    chunk_ (recordsOf ["x", "y", "x", "x"]) 2 =
      [[(0, "x")], [(1, "y")], [(2, "x")], [(3, "x")]] ∧
    (∀ c ∈ chunk_ (recordsOf ["x", "y", "x", "x"]) 2, trianglePairs c = []) ∧
    (squarePairs [((0 : ℕ), "x")] [((2 : ℕ), "x")]).filter isMatch =
      [((0, "x"), (2, "x"))] ∧
    (squarePairs [((0 : ℕ), "x")] [((3 : ℕ), "x")]).filter isMatch =
      [((0, "x"), (3, "x"))] ∧
    (squarePairs [((2 : ℕ), "x")] [((3 : ℕ), "x")]).filter isMatch =
      [((2, "x"), (3, "x"))] ∧
    scanMatches ["x", "y", "x", "x"] 2 =
      .ok [((0, "x"), (2, "x")), ((0, "x"), (3, "x")), ((2, "x"), (3, "x"))] ∧
    bruteForce ["x", "y", "x", "x"] =
      [((0, "x"), (2, "x")), ((0, "x"), (3, "x")), ((2, "x"), (3, "x"))] := by
  refine ⟨rfl, ?_, rfl, rfl, rfl, rfl, rfl⟩
  decide

/-- Counterexample to claim C7 as stated: `max_batch_size = 0` is not
rejected anywhere — the pipeline runs and produces scan output. -/
theorem config_validation_cex :
    scanMatches ["x", "x"] 0 = .ok [((0, "x"), (1, "x"))] := rfl

/-- Claim C7 as amended: the code performs no validation of `max_batch_size`:
for every non-positive value and non-empty input the batcher silently
produces singleton batches, and the scan runs and still emits the brute-force
match set. -/
theorem nonpositive_batch_runs (files : List String) (n : Int)
    (hn : n ≤ 0) (hne : files ≠ []) :
    chunk_ (recordsOf files) n = (recordsOf files).map (fun r => [r]) ∧
    ∃ l, scanMatches files n = .ok l ∧ l.Perm (bruteForce files) := by
  have hlen : files.length ≠ 0 := fun h => hne (List.length_eq_zero.mp h)
  have hnotle : ¬ (((recordsOf files).length : Int) ≤ n) := by
    simp only [recordsOf, List.enum_length]
    omega
  have hchunk : chunk_ (recordsOf files) n = (recordsOf files).map fun r => [r] := by
    unfold chunk_
    rw [if_neg hnotle]
    exact chunkGo_nonpos n hn _
  refine ⟨hchunk, ?_⟩
  apply scan_perm_bruteForce
  apply chunk_ne_nil
  right
  intro h
  have hlen0 := congrArg List.length h
  simp only [recordsOf, List.enum_length, List.length_nil] at hlen0
  exact hlen hlen0

/-- Witness for the amended C7 at `files = ["x", "x"]`, `max_batch_size = -3`. -/
theorem nonpositive_batch_runs_witness :
    ((-3 : Int) ≤ 0 ∧ (["x", "x"] : List String) ≠ []) ∧
      (chunk_ (recordsOf ["x", "x"]) (-3) = (recordsOf ["x", "x"]).map (fun r => [r]) ∧
        ∃ l, scanMatches ["x", "x"] (-3) = .ok l ∧ l.Perm (bruteForce ["x", "x"])) :=
  ⟨⟨by decide, by decide⟩, nonpositive_batch_runs ["x", "x"] (-3) (by decide) (by decide)⟩

/-- Counterexample to claim C8 as stated: the unreadable sentinel is the
in-band string `"MALFORMED_GENBANK_FILE"`, so a record that parsed fine but
whose payload happens to be exactly that string compares equal to an
unreadable record. -/
theorem sentinel_policy_cex :
    sequencesEqual (.valueError "ValueError: bad locus line")
      (.ok "MALFORMED_GENBANK_FILE") = true := rfl

/-- Claim C8 as amended: an unreadable record compares equal to a valid
record only when the valid payload is exactly the sentinel string
`"MALFORMED_GENBANK_FILE"` — for every other valid payload the comparison is
false (in both orders) — and two unreadable records always compare equal. -/
theorem sentinel_policy (msg seq : String) (hs : seq ≠ MALFORMED_SENTINEL) :
    sequencesEqual (.valueError msg) (.ok seq) = false ∧
    sequencesEqual (.ok seq) (.valueError msg) = false ∧
    ∀ msg2 : String, sequencesEqual (.valueError msg) (.valueError msg2) = true := by
  refine ⟨?_, ?_, fun msg2 => ?_⟩
  · simpa [sequencesEqual, read_data] using fun h => hs h.symm
  · simpa [sequencesEqual, read_data] using hs
  · simp [sequencesEqual, read_data]

/-- Witness for the amended C8 at message `"ValueError: x"` and valid payload
`"ACGT"`. -/
theorem sentinel_policy_witness :
    ("ACGT" : String) ≠ MALFORMED_SENTINEL ∧
      (sequencesEqual (.valueError "ValueError: x") (.ok "ACGT") = false ∧
        sequencesEqual (.ok "ACGT") (.valueError "ValueError: x") = false ∧
        ∀ msg2 : String,
          sequencesEqual (.valueError "ValueError: x") (.valueError msg2) = true) :=
  ⟨by decide, sentinel_policy "ValueError: x" "ACGT" (by decide)⟩

/-- Counterexample to claim C9 as stated: for a *negative* batch size the
batcher on an empty list returns no batches at all (not one empty batch), and
the scan's no-batches error branch is then reached. -/
theorem chunk_empty_negative_cex :
    chunk_ (recordsOf []) (-1) = [] ∧
    lower_triangular (chunk_ (recordsOf []) (-1)) =
      .error "No files in the list to consider" :=
  ⟨rfl, rfl⟩

/-- Claim C9 as amended: for every non-negative batch size, the batcher on an
empty identifier list returns exactly one empty batch, the scan over that
result raises no error and emits zero pairs, and the scan's no-batches error
branch is unreachable when fed from the batcher. -/
theorem chunk_empty_nonneg (n : Int) (hn : 0 ≤ n) :
    chunk_ (recordsOf []) n = [[]] ∧
    lower_triangular (chunk_ (recordsOf []) n) = .ok [] ∧
    ∀ files : List Record, chunk_ files n ≠ [] := by
  have hchunk : chunk_ (recordsOf []) n = [[]] := by
    unfold chunk_
    rw [if_pos (by simp only [recordsOf, List.enum_nil, List.length_nil, Nat.cast_zero]; omega)]
    rfl
  refine ⟨hchunk, ?_, fun files => chunk_ne_nil files n (Or.inl hn)⟩
  rw [hchunk]
  rfl

/-- Witness for the amended C9 at batch size `100`. -/
theorem chunk_empty_nonneg_witness :
    (0 : Int) ≤ 100 ∧
      (chunk_ (recordsOf []) 100 = [[]] ∧
        lower_triangular (chunk_ (recordsOf []) 100) = .ok [] ∧
        ∀ files : List Record, chunk_ files 100 ≠ []) :=
  ⟨by decide, chunk_empty_nonneg 100 (by decide)⟩

/-- Counterexample to claim C10 as stated: a single batch of four records
(here `max_batch_size = 100 >= N = 4`) makes `_triangle` materialize a
`data_pairs` list holding `12` freshly read record dicts at once — more than
two batches' worth (`8`) and more than the full record set (`4`). -/
theorem memory_bound_cex :
    chunk_ (recordsOf ["a", "b", "c", "d"]) 100 = [recordsOf ["a", "b", "c", "d"]] ∧
    triangleResident (recordsOf ["a", "b", "c", "d"]) = 12 ∧
    2 * (recordsOf ["a", "b", "c", "d"]).length <
      triangleResident (recordsOf ["a", "b", "c", "d"]) := by
  refine ⟨rfl, rfl, ?_⟩
  decide

/-- Claim C10 as amended: the eager `data_pairs` lists defeat the two-batch
memory bound: whenever `max_batch_size >= N` (one batch) and `N >= 4`, the
single Triangular visit holds `N*(N-1)` record-data dicts resident at once —
strictly more than two batches' worth, i.e. more than the full record set
twice over. -/
theorem memory_bound_violated (files : List String) (n : Int)
    (hle : (files.length : Int) ≤ n) (h4 : 4 ≤ files.length) :
    chunk_ (recordsOf files) n = [recordsOf files] ∧
    triangleResident (recordsOf files) = files.length * (files.length - 1) ∧
    2 * (recordsOf files).length < triangleResident (recordsOf files) := by
  have hlen : (recordsOf files).length = files.length := by
    simp [recordsOf]
  refine ⟨?_, ?_, ?_⟩
  · unfold chunk_
    rw [if_pos (by rw [hlen]; exact hle)]
  · unfold triangleResident
    rw [two_mul_trianglePairs_length, hlen]
  · unfold triangleResident
    rw [two_mul_trianglePairs_length, hlen]
    obtain ⟨k, hk⟩ : ∃ k, files.length = k + 4 := ⟨files.length - 4, by omega⟩
    rw [hk]
    have h2 : 2 * (k + 4) < 3 * (k + 4) := by omega
    have h3 : 3 * (k + 4) ≤ (k + 3) * (k + 4) := Nat.mul_le_mul (by omega) (le_refl _)
    calc 2 * (k + 4) < 3 * (k + 4) := h2
      _ ≤ (k + 3) * (k + 4) := h3
      _ = (k + 4) * (k + 4 - 1) := by
          rw [Nat.mul_comm]
          rfl

/-- Witness for the amended C10 at four records and `max_batch_size = 50`. -/
theorem memory_bound_violated_witness :
    (((["p", "q", "r", "s"] : List String).length : Int) ≤ 50 ∧
        4 ≤ (["p", "q", "r", "s"] : List String).length) ∧
      (chunk_ (recordsOf ["p", "q", "r", "s"]) 50 = [recordsOf ["p", "q", "r", "s"]] ∧
        triangleResident (recordsOf ["p", "q", "r", "s"]) =
          (["p", "q", "r", "s"] : List String).length *
            ((["p", "q", "r", "s"] : List String).length - 1) ∧
        2 * (recordsOf ["p", "q", "r", "s"]).length <
          triangleResident (recordsOf ["p", "q", "r", "s"])) :=
  ⟨⟨by decide, by decide⟩,
    memory_bound_violated ["p", "q", "r", "s"] 50 (by decide) (by decide)⟩

end BelgianBlue
